import Mathlib

/-!
# Verification of the tube-bending centerline construction

Shallow embedding of the bend-tube geometry code: the frame propagator
(`buildTube` path construction), the arc generator (`makeArc3D`), the
NURBS control-point builder (`computeControlPoints`), and the mesh
normalizer (centering and dominant-axis rotation).  Floating-point
vector arithmetic is modelled over the real numbers; the three.js
quaternion rotation `setFromAxisAngle` followed by `applyQuaternion`
(equivalently `applyAxisAngle`) is embedded by its exact component
formula.
-/

namespace BendTube

/-- A 3D vector with real components, modelling THREE.Vector3. -/
@[ext] structure Vec3 where
  x : ℝ
  y : ℝ
  z : ℝ

namespace Vec3

noncomputable instance : Add Vec3 := ⟨fun a b => ⟨a.x + b.x, a.y + b.y, a.z + b.z⟩⟩
noncomputable instance : Sub Vec3 := ⟨fun a b => ⟨a.x - b.x, a.y - b.y, a.z - b.z⟩⟩
noncomputable instance : Neg Vec3 := ⟨fun a => ⟨-a.x, -a.y, -a.z⟩⟩

@[simp] lemma add_x (a b : Vec3) : (a + b).x = a.x + b.x := rfl
@[simp] lemma add_y (a b : Vec3) : (a + b).y = a.y + b.y := rfl
@[simp] lemma add_z (a b : Vec3) : (a + b).z = a.z + b.z := rfl
@[simp] lemma sub_x (a b : Vec3) : (a - b).x = a.x - b.x := rfl
@[simp] lemma sub_y (a b : Vec3) : (a - b).y = a.y - b.y := rfl
@[simp] lemma sub_z (a b : Vec3) : (a - b).z = a.z - b.z := rfl
@[simp] lemma neg_x (a : Vec3) : (-a).x = -a.x := rfl
@[simp] lemma neg_y (a : Vec3) : (-a).y = -a.y := rfl
@[simp] lemma neg_z (a : Vec3) : (-a).z = -a.z := rfl

end Vec3

/-- Scalar multiplication, modelling `Vector3.multiplyScalar`. -/
noncomputable def smul (r : ℝ) (v : Vec3) : Vec3 := ⟨r * v.x, r * v.y, r * v.z⟩

@[simp] lemma smul_x (r : ℝ) (v : Vec3) : (smul r v).x = r * v.x := rfl
@[simp] lemma smul_y (r : ℝ) (v : Vec3) : (smul r v).y = r * v.y := rfl
@[simp] lemma smul_z (r : ℝ) (v : Vec3) : (smul r v).z = r * v.z := rfl

/-- Dot product, modelling `Vector3.dot`. -/
noncomputable def dot (a b : Vec3) : ℝ := a.x * b.x + a.y * b.y + a.z * b.z

/-- Cross product, modelling `Vector3.crossVectors`. -/
noncomputable def cross (a b : Vec3) : Vec3 :=
  ⟨a.y * b.z - a.z * b.y, a.z * b.x - a.x * b.z, a.x * b.y - a.y * b.x⟩

@[simp] lemma cross_x (a b : Vec3) : (cross a b).x = a.y * b.z - a.z * b.y := rfl
@[simp] lemma cross_y (a b : Vec3) : (cross a b).y = a.z * b.x - a.x * b.z := rfl
@[simp] lemma cross_z (a b : Vec3) : (cross a b).z = a.x * b.y - a.y * b.x := rfl

/-- Euclidean length, modelling `Vector3.length`. -/
noncomputable def norm3 (v : Vec3) : ℝ := Real.sqrt (dot v v)

/-- Normalization, modelling `Vector3.normalize` (division by the length;
the real-number model sends the zero vector to zero where the JS code
would produce NaN components). -/
noncomputable def normalize (v : Vec3) : Vec3 := smul (norm3 v)⁻¹ v

/-- Rotation of `v` about `axis` by `angle`, modelling
`Quaternion.setFromAxisAngle(axis, angle)` followed by
`Vector3.applyQuaternion` (the code path of both `applyAxisAngle` and
`applyQuaternion` in the source): with `q = (sin(angle/2) * axis,
cos(angle/2))`, the rotated vector is `v + cos(angle/2) * t + q_vec x t`
where `t = 2 * (q_vec x v)`. -/
noncomputable def applyAxisAngle (v axis : Vec3) (angle : ℝ) : Vec3 :=
  let s := Real.sin (angle / 2)
  let c := Real.cos (angle / 2)
  let qv := smul s axis
  let t := smul 2 (cross qv v)
  v + smul c t + cross qv t

/-- Degree-to-radian conversion, modelling `THREE.MathUtils.degToRad`. -/
noncomputable def degToRad (d : ℝ) : ℝ := d * (Real.pi / 180)

lemma degToRad_zero : degToRad 0 = 0 := by simp [degToRad]

/-- Rotating by angle zero is the identity. -/
lemma applyAxisAngle_zero (v axis : Vec3) : applyAxisAngle v axis 0 = v := by
  ext <;> simp [applyAxisAngle, cross, smul]

/-- The rotation axis itself is fixed by the rotation. -/
lemma applyAxisAngle_self (a : Vec3) (angle : ℝ) : applyAxisAngle a a angle = a := by
  ext <;> simp [applyAxisAngle, cross, smul] <;> ring

/-- Rotation about a unit axis preserves the dot product. -/
lemma dot_applyAxisAngle (a u v : Vec3) (angle : ℝ) (ha : dot a a = 1) :
    dot (applyAxisAngle u a angle) (applyAxisAngle v a angle) = dot u v := by
  have ha2 : a.x * a.x + a.y * a.y + a.z * a.z = 1 := ha
  have hp : Real.sin (angle / 2) ^ 2 + Real.cos (angle / 2) ^ 2 = 1 :=
    Real.sin_sq_add_cos_sq (angle / 2)
  simp only [applyAxisAngle, dot, cross, smul, Vec3.add_x, Vec3.add_y, Vec3.add_z]
  set s := Real.sin (angle / 2) with hs
  set c := Real.cos (angle / 2) with hc
  linear_combination
    (4 * s ^ 2 * ((a.x * a.x + a.y * a.y + a.z * a.z) * (u.x * v.x + u.y * v.y + u.z * v.z)
      - (a.x * u.x + a.y * u.y + a.z * u.z) * (a.x * v.x + a.y * v.y + a.z * v.z))) * hp +
    (4 * s ^ 2 * s ^ 2 * ((a.x * a.x + a.y * a.y + a.z * a.z) * (u.x * v.x + u.y * v.y + u.z * v.z)
      - (a.x * u.x + a.y * u.y + a.z * u.z) * (a.x * v.x + a.y * v.y + a.z * v.z))) * ha2

/-- Lagrange identity for the cross product. -/
lemma dot_cross_self (u v : Vec3) :
    dot (cross u v) (cross u v) = dot u u * dot v v - dot u v ^ 2 := by
  simp only [dot, cross]
  ring

/-- Normalizing a unit vector leaves it unchanged. -/
lemma normalize_of_unit {v : Vec3} (hv : dot v v = 1) : normalize v = v := by
  have : norm3 v = 1 := by rw [norm3, hv, Real.sqrt_one]
  ext <;> simp [normalize, this]

/-- One parametric bend, as in the frame-propagator source: a straight
length before the bend, the bend sweep angle in degrees, and the roll of
the bend plane in degrees. -/
structure Bend where
  length : ℝ
  angle : ℝ
  rotation : ℝ

/-- The fixed bend radius constant `BEND_RADIUS = 3`. -/
noncomputable def BEND_RADIUS : ℝ := 3

/-- A typed piece of the centerline path: a straight line segment with
its two endpoints (`THREE.LineCurve3`), or an arc given by its sampled
points (`THREE.CatmullRomCurve3` over the samples of `makeArc3D`). -/
inductive PathSegment where
  | line (p q : Vec3)
  | arc (pts : List Vec3)

/-- Start point of a path segment; for an arc, its first sample. -/
noncomputable def PathSegment.startPoint : PathSegment → Vec3
  | .line p _ => p
  | .arc pts => pts.headD ⟨0, 0, 0⟩

/-- End point of a path segment; for an arc, its last sample (which is
what `CatmullRomCurve3.getPoint(1)` returns in exact arithmetic). -/
noncomputable def PathSegment.endPoint : PathSegment → Vec3
  | .line _ q => q
  | .arc pts => pts.getLastD ⟨0, 0, 0⟩

/-- Arc center used by `makeArc3D`:
`origin + radius * normalize(cross(axis, tangent))`. -/
noncomputable def arcCenter (origin tangent axis : Vec3) (radius : ℝ) : Vec3 :=
  origin + smul radius (normalize (cross axis tangent))

/-- Number of arc segments used by `makeArc3D` (the source constant 32). -/
def arcSegments : ℕ := 32

/-- The arc generator `makeArc3D`: 33 samples obtained by rotating
`origin - center` about `axis` in equal increments from 0 to `angle`,
each translated back by `+ center`. -/
noncomputable def makeArc3D (origin tangent axis : Vec3) (radius angle : ℝ) : List Vec3 :=
  (List.range (arcSegments + 1)).map fun (i : ℕ) =>
    applyAxisAngle (origin - arcCenter origin tangent axis radius) axis
      ((i : ℝ) / (arcSegments : ℝ) * angle) + arcCenter origin tangent axis radius

/-- The moving local frame of the propagator: current position, unit
tangent, unit normal. -/
structure Frame where
  pos : Vec3
  tangent : Vec3
  normal : Vec3

/-- The canonical initial frame: position at the origin, tangent `+X`,
normal `+Y`. -/
noncomputable def initFrame : Frame := ⟨⟨0, 0, 0⟩, ⟨1, 0, 0⟩, ⟨0, 1, 0⟩⟩

/-- One iteration of the `buildTube` loop body: emit the straight
segment, roll the normal by `bend.rotation` about the tangent, compute
the bend axis, emit the arc, and advance the frame (position to the arc
terminal sample, tangent and normal rotated by the arc angle about the
bend axis).  Returns the advanced frame together with the two emitted
segments. -/
noncomputable def stepBend (f : Frame) (b : Bend) : Frame × List PathSegment :=
  let nextPos := f.pos + smul b.length f.tangent
  let normal2 := applyAxisAngle f.normal f.tangent (degToRad b.rotation)
  let axis := normalize (cross f.tangent normal2)
  let arcAngle := degToRad b.angle
  let arcPts := makeArc3D nextPos f.tangent axis BEND_RADIUS arcAngle
  (⟨arcPts.getLastD ⟨0, 0, 0⟩,
    applyAxisAngle f.tangent axis arcAngle,
    applyAxisAngle normal2 axis arcAngle⟩,
   [PathSegment.line f.pos nextPos, PathSegment.arc arcPts])

/-- The path-construction loop of `buildTube`, threading the frame
through the bend list and closing with the final straight segment of
length `endLength` along the final tangent. -/
noncomputable def buildSegs (f : Frame) : List Bend → ℝ → List PathSegment
  | [], endLength => [PathSegment.line f.pos (f.pos + smul endLength f.tangent)]
  | b :: bs, endLength => (stepBend f b).2 ++ buildSegs (stepBend f b).1 bs endLength

/-- The centerline path built by `buildTube` from the canonical initial
frame. -/
noncomputable def buildTubePath (bends : List Bend) (endLength : ℝ) : List PathSegment :=
  buildSegs initFrame bends endLength

/-- The frame obtained after applying a list of bends. -/
noncomputable def frameAfter (f : Frame) : List Bend → Frame
  | [] => f
  | b :: bs => frameAfter (stepBend f b).1 bs

lemma getLastD_append_singleton {α : Type} (l : List α) (a d : α) :
    (l ++ [a]).getLastD d = a := by
  induction l with
  | nil => rfl
  | cons b l ih =>
    cases l with
    | nil => rfl
    | cons c l => simpa using ih

/-- The first sample of `makeArc3D` is the origin. -/
lemma makeArc3D_head (origin tangent axis : Vec3) (radius angle : ℝ) (d : Vec3) :
    (makeArc3D origin tangent axis radius angle).headD d = origin := by
  rw [makeArc3D, show arcSegments + 1 = 32 + 1 from rfl, List.range_succ_eq_map]
  simp only [List.map_cons, List.headD_cons, Nat.cast_zero, zero_div, zero_mul,
    applyAxisAngle_zero]
  ext <;> simp

/-- The last sample of `makeArc3D` is the rotation of `origin - center`
by the full sweep angle, translated back by the center. -/
lemma makeArc3D_last (origin tangent axis : Vec3) (radius angle : ℝ) (d : Vec3) :
    (makeArc3D origin tangent axis radius angle).getLastD d =
      applyAxisAngle (origin - arcCenter origin tangent axis radius) axis angle +
        arcCenter origin tangent axis radius := by
  rw [makeArc3D, show arcSegments + 1 = 32 + 1 from rfl, List.range_succ,
    List.map_append, List.map_cons, List.map_nil, getLastD_append_singleton]
  norm_num [arcSegments]

lemma makeArc3D_ne_nil (origin tangent axis : Vec3) (radius angle : ℝ) :
    makeArc3D origin tangent axis radius angle ≠ [] := by
  simp [makeArc3D, arcSegments, List.range_succ]

/-- Two consecutive path segments are joined when the end point of the
first equals the start point of the second. -/
noncomputable def joined (s₁ s₂ : PathSegment) : Prop := s₁.endPoint = s₂.startPoint

lemma buildSegs_chain (bs : List Bend) : ∀ (f : Frame) (L : ℝ),
    List.Chain' joined (buildSegs f bs L) ∧
    ∀ y ∈ (buildSegs f bs L).head?, y.startPoint = f.pos := by
  induction bs with
  | nil =>
    intro f L
    refine ⟨List.chain'_singleton _, ?_⟩
    intro y hy
    simp only [buildSegs, List.head?_cons, Option.mem_def, Option.some.injEq] at hy
    subst hy
    rfl
  | cons b bs ih =>
    intro f L
    simp only [buildSegs, stepBend, List.cons_append, List.nil_append]
    refine ⟨?_, ?_⟩
    · rw [List.chain'_cons]
      refine ⟨?_, ?_⟩
      · show joined (PathSegment.line f.pos _) (PathSegment.arc _)
        rw [joined, PathSegment.endPoint, PathSegment.startPoint, makeArc3D_head]
      · rw [List.chain'_cons']
        refine ⟨?_, (ih _ _).1⟩
        intro y hy
        have hstart := (ih _ _).2 y hy
        show joined (PathSegment.arc _) y
        rw [joined, PathSegment.endPoint, hstart]
    · intro y hy
      simp only [List.head?_cons, Option.mem_def, Option.some.injEq] at hy
      subst hy
      rfl

/-- C1.  For every bend list and endLength, consecutive segments of the
centerline path built by the frame propagator share endpoints: each
straight line segment ends where the following arc begins (its first
sample), and each arc terminal sample is where the following line
segment begins.  Over the real-number model the agreement is exact,
hence in particular within any floating-point tolerance. -/
theorem buildTubePath_continuity (bends : List Bend) (endLength : ℝ) :
    List.Chain' joined (buildTubePath bends endLength) :=
  (buildSegs_chain bends initFrame endLength).1

/-- The bend axis computed by the propagator for frame `f` and bend `b`:
the normalized cross product of the tangent with the rolled normal. -/
noncomputable def bendAxisOf (f : Frame) (b : Bend) : Vec3 :=
  normalize (cross f.tangent (applyAxisAngle f.normal f.tangent (degToRad b.rotation)))

/-- C2.  The arc generator and the frame propagator agree on the arc
endpoint: the last sample of `makeArc3D` is exactly the rotation of
`origin - center` by the full sweep angle translated back by the
center, for every origin, tangent, bend axis, radius and sweep angle;
and the position the propagator adopts after a bend is exactly this
endpoint formula evaluated at the bend arc parameters. -/
theorem arc_endpoint_agreement :
    (∀ (origin tangent axis : Vec3) (radius angle : ℝ) (d : Vec3),
      (makeArc3D origin tangent axis radius angle).getLastD d =
        applyAxisAngle (origin - arcCenter origin tangent axis radius) axis angle +
          arcCenter origin tangent axis radius) ∧
    ∀ (f : Frame) (b : Bend),
      (stepBend f b).1.pos =
        applyAxisAngle
          (f.pos + smul b.length f.tangent -
            arcCenter (f.pos + smul b.length f.tangent) f.tangent (bendAxisOf f b) BEND_RADIUS)
          (bendAxisOf f b) (degToRad b.angle) +
        arcCenter (f.pos + smul b.length f.tangent) f.tangent (bendAxisOf f b) BEND_RADIUS := by
  refine ⟨fun origin tangent axis radius angle d => makeArc3D_last _ _ _ _ _ _, ?_⟩
  intro f b
  simp only [stepBend, bendAxisOf]
  exact makeArc3D_last _ _ _ _ _ _

/-- A frame is orthonormal when its tangent and normal are unit vectors
and mutually orthogonal. -/
noncomputable def Frame.orthonormal (f : Frame) : Prop :=
  dot f.tangent f.tangent = 1 ∧ dot f.normal f.normal = 1 ∧ dot f.tangent f.normal = 0

lemma initFrame_orthonormal : initFrame.orthonormal := by
  refine ⟨?_, ?_, ?_⟩ <;> norm_num [initFrame, dot]

lemma stepBend_orthonormal (f : Frame) (b : Bend) (hf : f.orthonormal) :
    (stepBend f b).1.orthonormal := by
  obtain ⟨ht, hn, htn⟩ := hf
  have hn2 : dot (applyAxisAngle f.normal f.tangent (degToRad b.rotation))
      (applyAxisAngle f.normal f.tangent (degToRad b.rotation)) = 1 := by
    rw [dot_applyAxisAngle _ _ _ _ ht, hn]
  have htn2 : dot f.tangent (applyAxisAngle f.normal f.tangent (degToRad b.rotation)) = 0 := by
    have h := dot_applyAxisAngle f.tangent f.tangent f.normal (degToRad b.rotation) ht
    rw [applyAxisAngle_self] at h
    rw [h, htn]
  have hcross : dot
      (cross f.tangent (applyAxisAngle f.normal f.tangent (degToRad b.rotation)))
      (cross f.tangent (applyAxisAngle f.normal f.tangent (degToRad b.rotation))) = 1 := by
    rw [dot_cross_self, ht, hn2, htn2]
    norm_num
  have haxis := normalize_of_unit hcross
  simp only [stepBend, haxis]
  exact ⟨by rw [dot_applyAxisAngle _ _ _ _ hcross, ht],
    by rw [dot_applyAxisAngle _ _ _ _ hcross, hn2],
    by rw [dot_applyAxisAngle _ _ _ _ hcross, htn2]⟩

lemma frameAfter_orthonormal (bs : List Bend) :
    ∀ f : Frame, f.orthonormal → (frameAfter f bs).orthonormal := by
  induction bs with
  | nil => exact fun f hf => hf
  | cons b bs ih => exact fun f hf => ih _ (stepBend_orthonormal f b hf)

/-- C3 (amended).  Starting from the canonical initial frame, after each
bend applied by the frame propagator `buildTube`, the frame tangent and
normal are unit vectors and mutually orthogonal.  (The analogous
statement is false for the NURBS control-point builder, whose normal is
never rotated by the bend angle; see the counterexample.) -/
theorem frame_orthonormal_buildTube (bends : List Bend) :
    (frameAfter initFrame bends).orthonormal :=
  frameAfter_orthonormal bends initFrame initFrame_orthonormal

/-- C4.  `makeArc3D` computes the arc center as
`origin + radius * normalize(cross(axis, tangent))` and produces its
samples over 32 segments by rotating `origin - center` about the bend
axis in equal angular increments from 0 to the sweep angle, translating
each rotated point back by the center; the sample at angle 0 is the
origin. -/
theorem makeArc3D_spec (origin tangent axis : Vec3) (radius angle : ℝ) :
    arcCenter origin tangent axis radius =
      origin + smul radius (normalize (cross axis tangent)) ∧
    makeArc3D origin tangent axis radius angle =
      (List.range 33).map (fun (i : ℕ) =>
        applyAxisAngle (origin - arcCenter origin tangent axis radius) axis
          ((i : ℝ) / 32 * angle) + arcCenter origin tangent axis radius) ∧
    (makeArc3D origin tangent axis radius angle).headD ⟨0, 0, 0⟩ = origin := by
  refine ⟨rfl, ?_, makeArc3D_head _ _ _ _ _ _⟩
  simp [makeArc3D, arcSegments]

/-- The `dimType` tag of the NURBS-variant bends. -/
inductive DimType where
  | tangent
  | apex

/-- A bend record of the NURBS variant, including its `dimType` tag. -/
structure BendN where
  length : ℝ
  angle : ℝ
  rotation : ℝ
  dimType : DimType

/-- The moving frame of the control-point builder: current position,
tangent, and up vector. -/
structure CCFrame where
  pos : Vec3
  tangent : Vec3
  up : Vec3

/-- Initial frame of `computeControlPoints`: origin, tangent `+X`,
up `+Y`. -/
noncomputable def ccInit : CCFrame := ⟨⟨0, 0, 0⟩, ⟨1, 0, 0⟩, ⟨0, 1, 0⟩⟩

/-- The up vector after the roll about the tangent by `bend.rotation`
degrees. -/
noncomputable def ccUp2 (f : CCFrame) (b : BendN) : Vec3 :=
  applyAxisAngle f.up f.tangent (degToRad b.rotation)

/-- Bend axis of the control-point builder: normalized cross product of
the tangent with the rolled up vector. -/
noncomputable def ccAxis (f : CCFrame) (b : BendN) : Vec3 :=
  normalize (cross f.tangent (ccUp2 f b))

/-- The apex control point: the current position offset along the
mid-sweep tangent (tangent rotated by half the bend angle about the
bend axis) scaled by `bend.length`. -/
noncomputable def ccApex (f : CCFrame) (b : BendN) : Vec3 :=
  f.pos + smul b.length (applyAxisAngle f.tangent (ccAxis f b) (degToRad b.angle / 2))

/-- Frame advance of `computeControlPoints`: the position moves by the
fully rotated tangent scaled by `bend.length` and the tangent is
rotated by the full bend angle about the bend axis; the up vector keeps
only its rolled value (the source never rotates it by the bend angle). -/
noncomputable def ccAdvance (f : CCFrame) (b : BendN) : CCFrame :=
  ⟨f.pos + smul b.length (applyAxisAngle f.tangent (ccAxis f b) (degToRad b.angle)),
   applyAxisAngle f.tangent (ccAxis f b) (degToRad b.angle),
   ccUp2 f b⟩

/-- The accumulation loop of `computeControlPoints`: two points pushed
per bend (current position, then the apex), and after all bends the
current position followed by the final endpoint. -/
noncomputable def ccGo (f : CCFrame) : List BendN → ℝ → List Vec3
  | [], endLength => [f.pos, f.pos + smul endLength f.tangent]
  | b :: bs, endLength => f.pos :: ccApex f b :: ccGo (ccAdvance f b) bs endLength

/-- The control points computed by the NURBS variant from its initial
frame. -/
noncomputable def computeControlPoints (bends : List BendN) (endLength : ℝ) : List Vec3 :=
  ccGo ccInit bends endLength

/-- The control-point builder frame after a list of bends. -/
noncomputable def ccFrameAfter (f : CCFrame) : List BendN → CCFrame
  | [] => f
  | b :: bs => ccFrameAfter (ccAdvance f b) bs

lemma ccGo_eq (bs : List BendN) : ∀ (f : CCFrame) (L : ℝ),
    ccGo f bs L =
      (List.zipWith (fun g b => [g.pos, ccApex g b]) (List.scanl ccAdvance f bs) bs).flatten ++
        [(ccFrameAfter f bs).pos,
         (ccFrameAfter f bs).pos + smul L (ccFrameAfter f bs).tangent] := by
  induction bs with
  | nil =>
    intro f L
    simp [ccGo, ccFrameAfter, List.scanl]
  | cons b bs ih =>
    intro f L
    simp only [ccGo, ccFrameAfter, List.scanl_cons, List.singleton_append,
      List.zipWith_cons_cons, List.flatten_cons, List.cons_append, List.nil_append,
      List.append_assoc]
    rw [ih]

lemma ccGo_length (bs : List BendN) : ∀ (f : CCFrame) (L : ℝ),
    (ccGo f bs L).length = 2 * bs.length + 2 := by
  induction bs with
  | nil => intro f L; rfl
  | cons b bs ih =>
    intro f L
    simp only [ccGo, List.length_cons, ih, List.length_cons]
    ring

/-- C9.  `computeControlPoints` emits exactly two points per bend (the
frame current position and the apex point along the mid-sweep tangent
scaled by the bend length), advancing the frame by the bend between
bends, then emits the final position and the final endpoint
`position + tangent * endLength`, producing `2 * n + 2` points. -/
theorem computeControlPoints_structure (bends : List BendN) (endLength : ℝ) :
    computeControlPoints bends endLength =
      (List.zipWith (fun g b => [g.pos, ccApex g b])
          (List.scanl ccAdvance ccInit bends) bends).flatten ++
        [(ccFrameAfter ccInit bends).pos,
         (ccFrameAfter ccInit bends).pos +
           smul endLength (ccFrameAfter ccInit bends).tangent] ∧
    (computeControlPoints bends endLength).length = 2 * bends.length + 2 :=
  ⟨ccGo_eq bends ccInit endLength, ccGo_length bends ccInit endLength⟩

/-- Two NURBS-variant bends agree geometrically when their length,
angle and rotation coincide (the `dimType` tags may differ). -/
noncomputable def sameGeom (b b' : BendN) : Prop :=
  b.length = b'.length ∧ b.angle = b'.angle ∧ b.rotation = b'.rotation

lemma ccApex_congr (f : CCFrame) {b b' : BendN} (h : sameGeom b b') :
    ccApex f b = ccApex f b' := by
  obtain ⟨h1, h2, h3⟩ := h
  rw [ccApex, ccApex, ccAxis, ccAxis, ccUp2, ccUp2, h1, h2, h3]

lemma ccAdvance_congr (f : CCFrame) {b b' : BendN} (h : sameGeom b b') :
    ccAdvance f b = ccAdvance f b' := by
  obtain ⟨h1, h2, h3⟩ := h
  rw [ccAdvance, ccAdvance, ccAxis, ccAxis, ccUp2, ccUp2, h1, h2, h3]

lemma ccGo_congr {bs bs' : List BendN} (h : List.Forall₂ sameGeom bs bs') :
    ∀ (f : CCFrame) (L : ℝ), ccGo f bs L = ccGo f bs' L := by
  induction h with
  | nil => intro f L; rfl
  | cons hb _ ih =>
    intro f L
    simp only [ccGo]
    rw [ccApex_congr f hb, ccAdvance_congr f hb, ih]

/-- C10.  The output of `computeControlPoints` does not depend on the
`dimType` fields: two bend lists that agree in length, angle and
rotation componentwise produce identical control points, whatever their
`dimType` tags. -/
theorem computeControlPoints_dimType_independent (bends bends' : List BendN) (endLength : ℝ)
    (h : List.Forall₂ sameGeom bends bends') :
    computeControlPoints bends endLength = computeControlPoints bends' endLength :=
  ccGo_congr h ccInit endLength

/-- Witness for C10 at a concrete pair of inputs differing only in
`dimType`. -/
theorem computeControlPoints_dimType_independent_witness :
    computeControlPoints [⟨1, 90, 0, DimType.tangent⟩] 1 =
      computeControlPoints [⟨1, 90, 0, DimType.apex⟩] 1 :=
  computeControlPoints_dimType_independent _ _ 1
    (List.Forall₂.cons ⟨rfl, rfl, rfl⟩ List.Forall₂.nil)

/-- C3 counterexample: in `computeControlPoints`, after the bend with
length 0, angle 90 and rotation 0, the frame tangent and up vector are
not orthogonal (their dot product is 1, the up vector never being
rotated by the bend angle). -/
theorem cc_frame_not_orthogonal :
    dot (ccFrameAfter ccInit [⟨0, 90, 0, DimType.tangent⟩]).tangent
      (ccFrameAfter ccInit [⟨0, 90, 0, DimType.tangent⟩]).up ≠ 0 := by
  have hup : ccUp2 ccInit ⟨0, 90, 0, DimType.tangent⟩ = ⟨0, 1, 0⟩ := by
    show applyAxisAngle ⟨0, 1, 0⟩ ⟨1, 0, 0⟩ (degToRad 0) = _
    rw [degToRad_zero, applyAxisAngle_zero]
  have haxis : ccAxis ccInit ⟨0, 90, 0, DimType.tangent⟩ = ⟨0, 0, 1⟩ := by
    rw [ccAxis, hup]
    have hc : cross ccInit.tangent ⟨0, 1, 0⟩ = ⟨0, 0, 1⟩ := by
      ext <;> norm_num [cross, ccInit]
    rw [hc]
    exact normalize_of_unit (by norm_num [dot])
  have h90 : degToRad 90 = Real.pi / 2 := by rw [degToRad]; ring
  have hfr : ccFrameAfter ccInit [⟨0, 90, 0, DimType.tangent⟩] =
      ccAdvance ccInit ⟨0, 90, 0, DimType.tangent⟩ := rfl
  rw [hfr]
  show dot (applyAxisAngle ccInit.tangent _ _) (ccUp2 ccInit _) ≠ 0
  rw [haxis, hup, h90]
  have hsq : Real.sqrt 2 ^ 2 = 2 := Real.sq_sqrt (by norm_num)
  have hhalf : Real.pi / 2 / 2 = Real.pi / 4 := by ring
  have hdot : dot (applyAxisAngle ccInit.tangent ⟨0, 0, 1⟩ (Real.pi / 2)) ⟨0, 1, 0⟩ = 1 := by
    simp only [ccInit, applyAxisAngle, dot, cross, smul, hhalf,
      Real.sin_pi_div_four, Real.cos_pi_div_four, Vec3.add_x, Vec3.add_y, Vec3.add_z]
    linear_combination (1 / 2) * hsq
  rw [hdot]
  norm_num

/-- Componentwise minimum of two vectors (`Box3.expandByPoint`, lower
corner). -/
noncomputable def vmin (a b : Vec3) : Vec3 := ⟨min a.x b.x, min a.y b.y, min a.z b.z⟩

/-- Componentwise maximum of two vectors (`Box3.expandByPoint`, upper
corner). -/
noncomputable def vmax (a b : Vec3) : Vec3 := ⟨max a.x b.x, max a.y b.y, max a.z b.z⟩

/-- An axis-aligned bounding box, modelling `THREE.Box3`. -/
structure Box where
  min : Vec3
  max : Vec3

/-- Bounding box of a vertex list: componentwise minimum and maximum
over all vertices (`computeBoundingBox`); the empty list yields a
degenerate box at the origin, never used. -/
noncomputable def bboxOf : List Vec3 → Box
  | [] => ⟨⟨0, 0, 0⟩, ⟨0, 0, 0⟩⟩
  | v :: vs => ⟨vs.foldl vmin v, vs.foldl vmax v⟩

/-- Center of a box, modelling `Box3.getCenter`. -/
noncomputable def boxCenter (b : Box) : Vec3 := smul (1 / 2) (b.min + b.max)

/-- Size (extents) of a box, modelling `Box3.getSize`. -/
noncomputable def boxSize (b : Box) : Vec3 := b.max - b.min

/-- The three canonical axes. -/
inductive Axis3 where
  | x
  | y
  | z
deriving DecidableEq

/-- Dominant-axis selection of `buildTube`: X by default, then Y when
its extent is strictly greater than both others, then Z when its extent
is strictly greater than both others (the Z check runs last and
overrides). -/
noncomputable def dominantAxis (s : Vec3) : Axis3 :=
  if s.z > s.x ∧ s.z > s.y then Axis3.z
  else if s.y > s.x ∧ s.y > s.z then Axis3.y
  else Axis3.x

/-- Application of `Matrix4.makeRotationZ(angle)` to a vertex. -/
noncomputable def rotZ (angle : ℝ) (v : Vec3) : Vec3 :=
  ⟨Real.cos angle * v.x - Real.sin angle * v.y,
   Real.sin angle * v.x + Real.cos angle * v.y,
   v.z⟩

/-- Application of `Matrix4.makeRotationY(angle)` to a vertex. -/
noncomputable def rotY (angle : ℝ) (v : Vec3) : Vec3 :=
  ⟨Real.cos angle * v.x + Real.sin angle * v.z,
   v.y,
   -(Real.sin angle) * v.x + Real.cos angle * v.z⟩

/-- The centering and axis-alignment steps of `buildTube` applied to
the mesh vertices: translate every vertex by minus the bounding-box
center, then rotate the whole mesh by -90 degrees about Z when the
dominant axis is Y, or by +90 degrees about Y when it is Z. -/
noncomputable def normalizeMesh : List Vec3 → List Vec3
  | [] => []
  | v :: vs =>
    let c := boxCenter (bboxOf (v :: vs))
    let s := boxSize (bboxOf (v :: vs))
    let centered := (v :: vs).map fun p => p - c
    match dominantAxis s with
    | Axis3.x => centered
    | Axis3.y => centered.map (rotZ (-(Real.pi / 2)))
    | Axis3.z => centered.map (rotY (Real.pi / 2))

lemma rotZ_neg_half_pi (v : Vec3) : rotZ (-(Real.pi / 2)) v = ⟨v.y, -v.x, v.z⟩ := by
  ext <;> simp [rotZ, Real.cos_pi_div_two, Real.sin_pi_div_two]

lemma rotY_half_pi (v : Vec3) : rotY (Real.pi / 2) v = ⟨v.z, v.y, -v.x⟩ := by
  ext <;> simp [rotY, Real.cos_pi_div_two, Real.sin_pi_div_two]

lemma foldl_min_sub (l : List ℝ) : ∀ a d : ℝ,
    (l.map fun t => t - d).foldl min (a - d) = l.foldl min a - d := by
  induction l with
  | nil => intro a d; rfl
  | cons t l ih =>
    intro a d
    simp only [List.map_cons, List.foldl_cons]
    rw [min_sub_sub_right, ih]

lemma foldl_max_sub (l : List ℝ) : ∀ a d : ℝ,
    (l.map fun t => t - d).foldl max (a - d) = l.foldl max a - d := by
  induction l with
  | nil => intro a d; rfl
  | cons t l ih =>
    intro a d
    simp only [List.map_cons, List.foldl_cons]
    rw [max_sub_sub_right, ih]

lemma foldl_min_negsub (l : List ℝ) : ∀ a d : ℝ,
    (l.map fun t => -(t - d)).foldl min (-(a - d)) = -(l.foldl max a - d) := by
  induction l with
  | nil => intro a d; rfl
  | cons t l ih =>
    intro a d
    simp only [List.map_cons, List.foldl_cons]
    rw [min_neg_neg, max_sub_sub_right, ih]

lemma foldl_max_negsub (l : List ℝ) : ∀ a d : ℝ,
    (l.map fun t => -(t - d)).foldl max (-(a - d)) = -(l.foldl min a - d) := by
  induction l with
  | nil => intro a d; rfl
  | cons t l ih =>
    intro a d
    simp only [List.map_cons, List.foldl_cons]
    rw [max_neg_neg, min_sub_sub_right, ih]

lemma foldl_vmin_comp (g : Vec3 → ℝ)
    (hg : ∀ a b : Vec3, g (vmin a b) = min (g a) (g b)) (vs : List Vec3) :
    ∀ v : Vec3, g (vs.foldl vmin v) = (vs.map g).foldl min (g v) := by
  induction vs with
  | nil => intro v; rfl
  | cons w vs ih =>
    intro v
    simp only [List.foldl_cons, List.map_cons]
    rw [ih, hg]

lemma foldl_vmax_comp (g : Vec3 → ℝ)
    (hg : ∀ a b : Vec3, g (vmax a b) = max (g a) (g b)) (vs : List Vec3) :
    ∀ v : Vec3, g (vs.foldl vmax v) = (vs.map g).foldl max (g v) := by
  induction vs with
  | nil => intro v; rfl
  | cons w vs ih =>
    intro v
    simp only [List.foldl_cons, List.map_cons]
    rw [ih, hg]

lemma bbox_min_comp_sub (g g' : Vec3 → ℝ) (d : ℝ) (F : Vec3 → Vec3)
    (hgF : ∀ p, g (F p) = g' p - d)
    (hg : ∀ a b : Vec3, g (vmin a b) = min (g a) (g b))
    (hg' : ∀ a b : Vec3, g' (vmin a b) = min (g' a) (g' b))
    (v : Vec3) (vs : List Vec3) :
    g (bboxOf ((v :: vs).map F)).min = g' (bboxOf (v :: vs)).min - d := by
  simp only [List.map_cons, bboxOf]
  rw [foldl_vmin_comp g hg, List.map_map]
  have h1 : (g ∘ F) = fun p => g' p - d := funext hgF
  rw [h1, hgF]
  have h2 : (fun p : Vec3 => g' p - d) = ((fun t : ℝ => t - d) ∘ g') := rfl
  rw [h2, ← List.map_map, foldl_min_sub, foldl_vmin_comp g' hg']

lemma bbox_max_comp_sub (g g' : Vec3 → ℝ) (d : ℝ) (F : Vec3 → Vec3)
    (hgF : ∀ p, g (F p) = g' p - d)
    (hg : ∀ a b : Vec3, g (vmax a b) = max (g a) (g b))
    (hg' : ∀ a b : Vec3, g' (vmax a b) = max (g' a) (g' b))
    (v : Vec3) (vs : List Vec3) :
    g (bboxOf ((v :: vs).map F)).max = g' (bboxOf (v :: vs)).max - d := by
  simp only [List.map_cons, bboxOf]
  rw [foldl_vmax_comp g hg, List.map_map]
  have h1 : (g ∘ F) = fun p => g' p - d := funext hgF
  rw [h1, hgF]
  have h2 : (fun p : Vec3 => g' p - d) = ((fun t : ℝ => t - d) ∘ g') := rfl
  rw [h2, ← List.map_map, foldl_max_sub, foldl_vmax_comp g' hg']

lemma bbox_min_comp_negsub (g g' : Vec3 → ℝ) (d : ℝ) (F : Vec3 → Vec3)
    (hgF : ∀ p, g (F p) = -(g' p - d))
    (hg : ∀ a b : Vec3, g (vmin a b) = min (g a) (g b))
    (hg' : ∀ a b : Vec3, g' (vmax a b) = max (g' a) (g' b))
    (v : Vec3) (vs : List Vec3) :
    g (bboxOf ((v :: vs).map F)).min = -(g' (bboxOf (v :: vs)).max - d) := by
  simp only [List.map_cons, bboxOf]
  rw [foldl_vmin_comp g hg, List.map_map]
  have h1 : (g ∘ F) = fun p => -(g' p - d) := funext hgF
  rw [h1, hgF]
  have h2 : (fun p : Vec3 => -(g' p - d)) = ((fun t : ℝ => -(t - d)) ∘ g') := rfl
  rw [h2, ← List.map_map, foldl_min_negsub, foldl_vmax_comp g' hg']

lemma bbox_max_comp_negsub (g g' : Vec3 → ℝ) (d : ℝ) (F : Vec3 → Vec3)
    (hgF : ∀ p, g (F p) = -(g' p - d))
    (hg : ∀ a b : Vec3, g (vmax a b) = max (g a) (g b))
    (hg' : ∀ a b : Vec3, g' (vmin a b) = min (g' a) (g' b))
    (v : Vec3) (vs : List Vec3) :
    g (bboxOf ((v :: vs).map F)).max = -(g' (bboxOf (v :: vs)).min - d) := by
  simp only [List.map_cons, bboxOf]
  rw [foldl_vmax_comp g hg, List.map_map]
  have h1 : (g ∘ F) = fun p => -(g' p - d) := funext hgF
  rw [h1, hgF]
  have h2 : (fun p : Vec3 => -(g' p - d)) = ((fun t : ℝ => -(t - d)) ∘ g') := rfl
  rw [h2, ← List.map_map, foldl_max_negsub, foldl_vmin_comp g' hg']

/-- Mark the bounding-box structure as extensional. -/
lemma Box.ext2 {b₁ b₂ : Box} (hmin : b₁.min = b₂.min) (hmax : b₁.max = b₂.max) :
    b₁ = b₂ := by
  cases b₁
  cases b₂
  simp_all

/-- Bounding box of a translated vertex list. -/
lemma bbox_centered_eq (v : Vec3) (vs : List Vec3) (c : Vec3) :
    bboxOf ((v :: vs).map fun p => p - c) =
      ⟨(bboxOf (v :: vs)).min - c, (bboxOf (v :: vs)).max - c⟩ := by
  have h1 := bbox_min_comp_sub Vec3.x Vec3.x c.x (fun p => p - c)
    (fun p => rfl) (fun a b => rfl) (fun a b => rfl) v vs
  have h2 := bbox_min_comp_sub Vec3.y Vec3.y c.y (fun p => p - c)
    (fun p => rfl) (fun a b => rfl) (fun a b => rfl) v vs
  have h3 := bbox_min_comp_sub Vec3.z Vec3.z c.z (fun p => p - c)
    (fun p => rfl) (fun a b => rfl) (fun a b => rfl) v vs
  have h4 := bbox_max_comp_sub Vec3.x Vec3.x c.x (fun p => p - c)
    (fun p => rfl) (fun a b => rfl) (fun a b => rfl) v vs
  have h5 := bbox_max_comp_sub Vec3.y Vec3.y c.y (fun p => p - c)
    (fun p => rfl) (fun a b => rfl) (fun a b => rfl) v vs
  have h6 := bbox_max_comp_sub Vec3.z Vec3.z c.z (fun p => p - c)
    (fun p => rfl) (fun a b => rfl) (fun a b => rfl) v vs
  refine Box.ext2 ?_ ?_ <;> ext
  · exact h1
  · exact h2
  · exact h3
  · exact h4
  · exact h5
  · exact h6

/-- Bounding box after centering and the -90 degree rotation about Z. -/
lemma bbox_rotZ_eq (v : Vec3) (vs : List Vec3) (c : Vec3) :
    bboxOf (((v :: vs).map fun p => p - c).map (rotZ (-(Real.pi / 2)))) =
      ⟨⟨(bboxOf (v :: vs)).min.y - c.y, -((bboxOf (v :: vs)).max.x - c.x),
        (bboxOf (v :: vs)).min.z - c.z⟩,
       ⟨(bboxOf (v :: vs)).max.y - c.y, -((bboxOf (v :: vs)).min.x - c.x),
        (bboxOf (v :: vs)).max.z - c.z⟩⟩ := by
  rw [List.map_map]
  have h1 := bbox_min_comp_sub Vec3.x Vec3.y c.y (rotZ (-(Real.pi / 2)) ∘ fun p => p - c)
    (fun p => by rw [Function.comp_apply, rotZ_neg_half_pi]; rfl) (fun a b => rfl) (fun a b => rfl) v vs
  have h2 := bbox_min_comp_negsub Vec3.y Vec3.x c.x (rotZ (-(Real.pi / 2)) ∘ fun p => p - c)
    (fun p => by rw [Function.comp_apply, rotZ_neg_half_pi]; rfl) (fun a b => rfl) (fun a b => rfl) v vs
  have h3 := bbox_min_comp_sub Vec3.z Vec3.z c.z (rotZ (-(Real.pi / 2)) ∘ fun p => p - c)
    (fun p => by rw [Function.comp_apply, rotZ_neg_half_pi]; rfl) (fun a b => rfl) (fun a b => rfl) v vs
  have h4 := bbox_max_comp_sub Vec3.x Vec3.y c.y (rotZ (-(Real.pi / 2)) ∘ fun p => p - c)
    (fun p => by rw [Function.comp_apply, rotZ_neg_half_pi]; rfl) (fun a b => rfl) (fun a b => rfl) v vs
  have h5 := bbox_max_comp_negsub Vec3.y Vec3.x c.x (rotZ (-(Real.pi / 2)) ∘ fun p => p - c)
    (fun p => by rw [Function.comp_apply, rotZ_neg_half_pi]; rfl) (fun a b => rfl) (fun a b => rfl) v vs
  have h6 := bbox_max_comp_sub Vec3.z Vec3.z c.z (rotZ (-(Real.pi / 2)) ∘ fun p => p - c)
    (fun p => by rw [Function.comp_apply, rotZ_neg_half_pi]; rfl) (fun a b => rfl) (fun a b => rfl) v vs
  refine Box.ext2 ?_ ?_ <;> ext
  · exact h1
  · exact h2
  · exact h3
  · exact h4
  · exact h5
  · exact h6

/-- Bounding box after centering and the +90 degree rotation about Y. -/
lemma bbox_rotY_eq (v : Vec3) (vs : List Vec3) (c : Vec3) :
    bboxOf (((v :: vs).map fun p => p - c).map (rotY (Real.pi / 2))) =
      ⟨⟨(bboxOf (v :: vs)).min.z - c.z, (bboxOf (v :: vs)).min.y - c.y,
        -((bboxOf (v :: vs)).max.x - c.x)⟩,
       ⟨(bboxOf (v :: vs)).max.z - c.z, (bboxOf (v :: vs)).max.y - c.y,
        -((bboxOf (v :: vs)).min.x - c.x)⟩⟩ := by
  rw [List.map_map]
  have h1 := bbox_min_comp_sub Vec3.x Vec3.z c.z (rotY (Real.pi / 2) ∘ fun p => p - c)
    (fun p => by rw [Function.comp_apply, rotY_half_pi]; rfl) (fun a b => rfl) (fun a b => rfl) v vs
  have h2 := bbox_min_comp_sub Vec3.y Vec3.y c.y (rotY (Real.pi / 2) ∘ fun p => p - c)
    (fun p => by rw [Function.comp_apply, rotY_half_pi]; rfl) (fun a b => rfl) (fun a b => rfl) v vs
  have h3 := bbox_min_comp_negsub Vec3.z Vec3.x c.x (rotY (Real.pi / 2) ∘ fun p => p - c)
    (fun p => by rw [Function.comp_apply, rotY_half_pi]; rfl) (fun a b => rfl) (fun a b => rfl) v vs
  have h4 := bbox_max_comp_sub Vec3.x Vec3.z c.z (rotY (Real.pi / 2) ∘ fun p => p - c)
    (fun p => by rw [Function.comp_apply, rotY_half_pi]; rfl) (fun a b => rfl) (fun a b => rfl) v vs
  have h5 := bbox_max_comp_sub Vec3.y Vec3.y c.y (rotY (Real.pi / 2) ∘ fun p => p - c)
    (fun p => by rw [Function.comp_apply, rotY_half_pi]; rfl) (fun a b => rfl) (fun a b => rfl) v vs
  have h6 := bbox_max_comp_negsub Vec3.z Vec3.x c.x (rotY (Real.pi / 2) ∘ fun p => p - c)
    (fun p => by rw [Function.comp_apply, rotY_half_pi]; rfl) (fun a b => rfl) (fun a b => rfl) v vs
  refine Box.ext2 ?_ ?_ <;> ext
  · exact h1
  · exact h2
  · exact h3
  · exact h4
  · exact h5
  · exact h6

/-- C5 (amended).  For every nonempty mesh vertex list, after the
normalizer (centering translation followed by the conditional 90-degree
rotation) the bounding box of the result is always centered at the
origin; and whenever the extents are not in the tie configuration
`y-extent = z-extent > x-extent`, the longest extent of the result lies
along the X axis. -/
theorem normalizeMesh_centered_and_xmax (v : Vec3) (vs : List Vec3) :
    boxCenter (bboxOf (normalizeMesh (v :: vs))) = ⟨0, 0, 0⟩ ∧
    (¬((boxSize (bboxOf (v :: vs))).y = (boxSize (bboxOf (v :: vs))).z ∧
        (boxSize (bboxOf (v :: vs))).x < (boxSize (bboxOf (v :: vs))).y) →
      (boxSize (bboxOf (normalizeMesh (v :: vs)))).y ≤
        (boxSize (bboxOf (normalizeMesh (v :: vs)))).x ∧
      (boxSize (bboxOf (normalizeMesh (v :: vs)))).z ≤
        (boxSize (bboxOf (normalizeMesh (v :: vs)))).x) := by
  by_cases hzc : (boxSize (bboxOf (v :: vs))).z > (boxSize (bboxOf (v :: vs))).x ∧
      (boxSize (bboxOf (v :: vs))).z > (boxSize (bboxOf (v :: vs))).y
  · have hres : normalizeMesh (v :: vs) =
        ((v :: vs).map fun p => p - boxCenter (bboxOf (v :: vs))).map (rotY (Real.pi / 2)) := by
      simp only [normalizeMesh]
      rw [dominantAxis, if_pos hzc]
    rw [hres, bbox_rotY_eq]
    simp only [boxSize, Vec3.sub_x, Vec3.sub_y, Vec3.sub_z] at hzc
    refine ⟨by ext <;> simp [boxCenter] <;> ring, fun _ => ?_⟩
    refine ⟨?_, ?_⟩ <;>
      simp only [boxSize, Vec3.sub_x, Vec3.sub_y, Vec3.sub_z, Vec3.neg_x, Vec3.neg_y,
        Vec3.neg_z, boxCenter, smul_x, smul_y, smul_z, Vec3.add_x, Vec3.add_y, Vec3.add_z] <;>
      linarith [hzc.1, hzc.2]
  · by_cases hyc : (boxSize (bboxOf (v :: vs))).y > (boxSize (bboxOf (v :: vs))).x ∧
        (boxSize (bboxOf (v :: vs))).y > (boxSize (bboxOf (v :: vs))).z
    · have hres : normalizeMesh (v :: vs) =
          ((v :: vs).map fun p => p - boxCenter (bboxOf (v :: vs))).map
            (rotZ (-(Real.pi / 2))) := by
        simp only [normalizeMesh]
        rw [dominantAxis, if_neg hzc, if_pos hyc]
      rw [hres, bbox_rotZ_eq]
      simp only [boxSize, Vec3.sub_x, Vec3.sub_y, Vec3.sub_z] at hyc
      refine ⟨by ext <;> simp [boxCenter] <;> ring, fun _ => ?_⟩
      refine ⟨?_, ?_⟩ <;>
        simp only [boxSize, Vec3.sub_x, Vec3.sub_y, Vec3.sub_z, Vec3.neg_x, Vec3.neg_y,
          Vec3.neg_z, boxCenter, smul_x, smul_y, smul_z, Vec3.add_x, Vec3.add_y, Vec3.add_z] <;>
        linarith [hyc.1, hyc.2]
    · have hres : normalizeMesh (v :: vs) =
          (v :: vs).map fun p => p - boxCenter (bboxOf (v :: vs)) := by
        simp only [normalizeMesh]
        rw [dominantAxis, if_neg hzc, if_neg hyc]
      rw [hres, bbox_centered_eq]
      refine ⟨by ext <;> simp [boxCenter] <;> ring, fun htie => ?_⟩
      simp only [boxSize, Vec3.sub_x, Vec3.sub_y, Vec3.sub_z] at hzc hyc htie
      push_neg at hzc hyc htie
      have hy : (bboxOf (v :: vs)).max.y - (bboxOf (v :: vs)).min.y ≤
          (bboxOf (v :: vs)).max.x - (bboxOf (v :: vs)).min.x := by
        by_contra h
        push_neg at h
        rcases le_or_lt ((bboxOf (v :: vs)).max.z - (bboxOf (v :: vs)).min.z)
          ((bboxOf (v :: vs)).max.x - (bboxOf (v :: vs)).min.x) with h1 | h1
        · linarith [hyc h]
        · have h4 := le_antisymm (hyc h) (hzc h1)
          linarith [htie h4]
      have hz : (bboxOf (v :: vs)).max.z - (bboxOf (v :: vs)).min.z ≤
          (bboxOf (v :: vs)).max.x - (bboxOf (v :: vs)).min.x := by
        by_contra h
        push_neg at h
        have h2 := hzc h
        have h4 := le_antisymm (hyc (lt_of_lt_of_le h h2)) h2
        linarith [htie h4]
      refine ⟨?_, ?_⟩ <;>
        simp only [boxSize, Vec3.sub_x, Vec3.sub_y, Vec3.sub_z, boxCenter, smul_x, smul_y,
          smul_z, Vec3.add_x, Vec3.add_y, Vec3.add_z] <;>
        linarith [hy, hz]

/-- Witness for C5 (amended) at a concrete vertex list with extents
(3, 1, 2), discharging the tie-exclusion hypothesis of the
X-dominance conclusion there. -/
theorem normalizeMesh_centered_and_xmax_witness :
    boxCenter (bboxOf (normalizeMesh [⟨0, 0, 0⟩, ⟨3, 1, 2⟩])) = ⟨0, 0, 0⟩ ∧
    (boxSize (bboxOf (normalizeMesh [⟨0, 0, 0⟩, ⟨3, 1, 2⟩]))).y ≤
      (boxSize (bboxOf (normalizeMesh [⟨0, 0, 0⟩, ⟨3, 1, 2⟩]))).x ∧
    (boxSize (bboxOf (normalizeMesh [⟨0, 0, 0⟩, ⟨3, 1, 2⟩]))).z ≤
      (boxSize (bboxOf (normalizeMesh [⟨0, 0, 0⟩, ⟨3, 1, 2⟩]))).x := by
  have hbb : bboxOf [(⟨0, 0, 0⟩ : Vec3), ⟨3, 1, 2⟩] = ⟨⟨0, 0, 0⟩, ⟨3, 1, 2⟩⟩ := by
    refine Box.ext2 ?_ ?_ <;> ext <;>
      simp [bboxOf, vmin, vmax, min_def, max_def]
  have h := normalizeMesh_centered_and_xmax ⟨0, 0, 0⟩ [⟨3, 1, 2⟩]
  refine ⟨h.1, h.2 ?_⟩
  rw [hbb]
  norm_num [boxSize]

/-- C5 counterexample: for the vertex list with extents (1, 2, 2) the
Y and Z extents tie strictly above X, no rotation is applied, and the
longest extent of the normalized mesh does not lie along X. -/
theorem normalizeMesh_tie_counterexample :
    (boxSize (bboxOf (normalizeMesh [⟨0, 0, 0⟩, ⟨1, 2, 2⟩]))).x <
      (boxSize (bboxOf (normalizeMesh [⟨0, 0, 0⟩, ⟨1, 2, 2⟩]))).y := by
  have hbb : bboxOf [(⟨0, 0, 0⟩ : Vec3), ⟨1, 2, 2⟩] = ⟨⟨0, 0, 0⟩, ⟨1, 2, 2⟩⟩ := by
    refine Box.ext2 ?_ ?_ <;> ext <;>
      simp [bboxOf, vmin, vmax, min_def, max_def]
  have hres : normalizeMesh [⟨0, 0, 0⟩, ⟨1, 2, 2⟩] =
      ([(⟨0, 0, 0⟩ : Vec3), ⟨1, 2, 2⟩]).map fun p => p - boxCenter (bboxOf [⟨0, 0, 0⟩, ⟨1, 2, 2⟩]) := by
    simp only [normalizeMesh]
    rw [dominantAxis, if_neg, if_neg]
    · rw [hbb]
      norm_num [boxSize]
    · rw [hbb]
      norm_num [boxSize]
  rw [hres, bbox_centered_eq, hbb]
  norm_num [boxSize]

lemma dominantAxis_eq_y (s : Vec3) :
    dominantAxis s = Axis3.y ↔ (s.y > s.x ∧ s.y > s.z) := by
  rw [dominantAxis]
  by_cases hz : s.z > s.x ∧ s.z > s.y
  · rw [if_pos hz]
    constructor
    · intro h
      exact absurd h (by decide)
    · intro hy
      exact absurd hz.2 (not_lt.2 hy.2.le)
  · rw [if_neg hz]
    by_cases hy : s.y > s.x ∧ s.y > s.z
    · rw [if_pos hy]
      simp [hy]
    · rw [if_neg hy]
      constructor
      · intro h
        exact absurd h (by decide)
      · intro h
        exact absurd h hy

lemma dominantAxis_eq_z (s : Vec3) :
    dominantAxis s = Axis3.z ↔ (s.z > s.x ∧ s.z > s.y) := by
  rw [dominantAxis]
  by_cases hz : s.z > s.x ∧ s.z > s.y
  · rw [if_pos hz]
    simp [hz]
  · rw [if_neg hz]
    by_cases hy : s.y > s.x ∧ s.y > s.z
    · rw [if_pos hy]
      constructor
      · intro h
        exact absurd h (by decide)
      · intro h
        exact absurd h hz
    · rw [if_neg hy]
      constructor
      · intro h
        exact absurd h (by decide)
      · intro h
        exact absurd h hz

lemma dominantAxis_eq_x (s : Vec3) :
    dominantAxis s = Axis3.x ↔
      (¬(s.y > s.x ∧ s.y > s.z) ∧ ¬(s.z > s.x ∧ s.z > s.y)) := by
  rw [dominantAxis]
  by_cases hz : s.z > s.x ∧ s.z > s.y
  · rw [if_pos hz]
    constructor
    · intro h
      exact absurd h (by decide)
    · intro h
      exact absurd hz h.2
  · rw [if_neg hz]
    by_cases hy : s.y > s.x ∧ s.y > s.z
    · rw [if_pos hy]
      constructor
      · intro h
        exact absurd h (by decide)
      · intro h
        exact absurd hy h.1
    · rw [if_neg hy]
      simp [hy, hz]

lemma normalizeMesh_511 :
    normalizeMesh [⟨0, 0, 0⟩, ⟨5, 1, 1⟩] =
      [⟨-(5 / 2), -(1 / 2), -(1 / 2)⟩, ⟨5 / 2, 1 / 2, 1 / 2⟩] := by
  have hbb : bboxOf [(⟨0, 0, 0⟩ : Vec3), ⟨5, 1, 1⟩] = ⟨⟨0, 0, 0⟩, ⟨5, 1, 1⟩⟩ := by
    refine Box.ext2 ?_ ?_ <;> ext <;> simp [bboxOf, vmin, vmax, min_def, max_def]
  have hs : boxSize (⟨⟨0, 0, 0⟩, ⟨5, 1, 1⟩⟩ : Box) = ⟨5, 1, 1⟩ := by
    ext <;> simp [boxSize]
  have hc : boxCenter (⟨⟨0, 0, 0⟩, ⟨5, 1, 1⟩⟩ : Box) = ⟨5 / 2, 1 / 2, 1 / 2⟩ := by
    ext <;> simp [boxCenter] <;> norm_num
  simp only [normalizeMesh, hbb, hs, hc]
  rw [dominantAxis, if_neg (by norm_num), if_neg (by norm_num)]
  norm_num [Vec3.ext_iff]

lemma normalizeMesh_151 :
    normalizeMesh [⟨0, 0, 0⟩, ⟨1, 5, 1⟩] =
      [⟨-(5 / 2), 1 / 2, -(1 / 2)⟩, ⟨5 / 2, -(1 / 2), 1 / 2⟩] := by
  have hbb : bboxOf [(⟨0, 0, 0⟩ : Vec3), ⟨1, 5, 1⟩] = ⟨⟨0, 0, 0⟩, ⟨1, 5, 1⟩⟩ := by
    refine Box.ext2 ?_ ?_ <;> ext <;> simp [bboxOf, vmin, vmax, min_def, max_def]
  have hs : boxSize (⟨⟨0, 0, 0⟩, ⟨1, 5, 1⟩⟩ : Box) = ⟨1, 5, 1⟩ := by
    ext <;> simp [boxSize]
  have hc : boxCenter (⟨⟨0, 0, 0⟩, ⟨1, 5, 1⟩⟩ : Box) = ⟨1 / 2, 5 / 2, 1 / 2⟩ := by
    ext <;> simp [boxCenter] <;> norm_num
  simp only [normalizeMesh, hbb, hs, hc]
  rw [dominantAxis, if_neg (by norm_num), if_pos (by norm_num)]
  norm_num [rotZ_neg_half_pi, Vec3.ext_iff]

lemma normalizeMesh_115 :
    normalizeMesh [⟨0, 0, 0⟩, ⟨1, 1, 5⟩] =
      [⟨-(5 / 2), -(1 / 2), 1 / 2⟩, ⟨5 / 2, 1 / 2, -(1 / 2)⟩] := by
  have hbb : bboxOf [(⟨0, 0, 0⟩ : Vec3), ⟨1, 1, 5⟩] = ⟨⟨0, 0, 0⟩, ⟨1, 1, 5⟩⟩ := by
    refine Box.ext2 ?_ ?_ <;> ext <;> simp [bboxOf, vmin, vmax, min_def, max_def]
  have hs : boxSize (⟨⟨0, 0, 0⟩, ⟨1, 1, 5⟩⟩ : Box) = ⟨1, 1, 5⟩ := by
    ext <;> simp [boxSize]
  have hc : boxCenter (⟨⟨0, 0, 0⟩, ⟨1, 1, 5⟩⟩ : Box) = ⟨1 / 2, 1 / 2, 5 / 2⟩ := by
    ext <;> simp [boxCenter] <;> norm_num
  simp only [normalizeMesh, hbb, hs, hc]
  rw [dominantAxis, if_pos (by norm_num)]
  norm_num [rotY_half_pi, Vec3.ext_iff]

/-- C6.  Dominant-axis determination is deterministic with X as the
default under strict comparisons: extents (5,1,1) resolve to X with no
rotation; extents (1,5,1) resolve to Y and trigger the -90 degree
rotation about Z; extents (1,1,5) resolve to Z and trigger the +90
degree rotation about Y; an axis overrides X exactly when its extent is
strictly greater than both other extents, so ties resolve to X. -/
theorem dominantAxis_determinism :
    dominantAxis ⟨5, 1, 1⟩ = Axis3.x ∧
    dominantAxis ⟨1, 5, 1⟩ = Axis3.y ∧
    dominantAxis ⟨1, 1, 5⟩ = Axis3.z ∧
    normalizeMesh [⟨0, 0, 0⟩, ⟨5, 1, 1⟩] =
      [⟨-(5 / 2), -(1 / 2), -(1 / 2)⟩, ⟨5 / 2, 1 / 2, 1 / 2⟩] ∧
    normalizeMesh [⟨0, 0, 0⟩, ⟨1, 5, 1⟩] =
      [⟨-(5 / 2), 1 / 2, -(1 / 2)⟩, ⟨5 / 2, -(1 / 2), 1 / 2⟩] ∧
    normalizeMesh [⟨0, 0, 0⟩, ⟨1, 1, 5⟩] =
      [⟨-(5 / 2), -(1 / 2), 1 / 2⟩, ⟨5 / 2, 1 / 2, -(1 / 2)⟩] ∧
    (∀ s : Vec3, dominantAxis s = Axis3.y ↔ (s.y > s.x ∧ s.y > s.z)) ∧
    (∀ s : Vec3, dominantAxis s = Axis3.z ↔ (s.z > s.x ∧ s.z > s.y)) ∧
    (∀ s : Vec3, dominantAxis s = Axis3.x ↔
      (¬(s.y > s.x ∧ s.y > s.z) ∧ ¬(s.z > s.x ∧ s.z > s.y))) := by
  refine ⟨?_, ?_, ?_, normalizeMesh_511, normalizeMesh_151, normalizeMesh_115,
    dominantAxis_eq_y, dominantAxis_eq_z, dominantAxis_eq_x⟩
  · rw [dominantAxis_eq_x]
    norm_num
  · rw [dominantAxis_eq_y]
    norm_num
  · rw [dominantAxis_eq_z]
    norm_num

/-- Whether a path segment is a straight line segment. -/
def isLine : PathSegment → Bool
  | .line _ _ => true
  | .arc _ => false

/-- Whether a path segment is an arc. -/
def isArc : PathSegment → Bool
  | .line _ _ => false
  | .arc _ => true

/-- Number of line segments in a path. -/
def numLines (segs : List PathSegment) : ℕ := (segs.filter isLine).length

/-- Number of arc segments in a path. -/
def numArcs (segs : List PathSegment) : ℕ := (segs.filter isArc).length

/-- Ideal circular-arc length: `arcLength(radius, angle) = radius * angle`
with the angle in radians. -/
noncomputable def arcLength (radius angle : ℝ) : ℝ := radius * angle

/-- C8.  For an empty bend list the built path is a single straight
segment from the origin to `(L, 0, 0)` along the initial tangent `+X`,
of length exactly `L` whenever `L` is nonnegative. -/
theorem empty_bends_single_segment (L : ℝ) :
    buildTubePath [] L = [PathSegment.line ⟨0, 0, 0⟩ ⟨L, 0, 0⟩] ∧
    (0 ≤ L → norm3 ((⟨L, 0, 0⟩ : Vec3) - ⟨0, 0, 0⟩) = L) := by
  constructor
  · simp only [buildTubePath, buildSegs, initFrame]
    have h : (⟨0, 0, 0⟩ : Vec3) + smul L ⟨1, 0, 0⟩ = ⟨L, 0, 0⟩ := by
      ext <;> simp
    rw [h]
  · intro hL
    have h : dot ((⟨L, 0, 0⟩ : Vec3) - ⟨0, 0, 0⟩) ((⟨L, 0, 0⟩ : Vec3) - ⟨0, 0, 0⟩) = L ^ 2 := by
      simp [dot]
      ring
    rw [norm3, h, Real.sqrt_sq hL]

/-- Witness for C8 at `L = 2`. -/
theorem empty_bends_single_segment_witness :
    buildTubePath [] 2 = [PathSegment.line ⟨0, 0, 0⟩ ⟨2, 0, 0⟩] ∧
    norm3 ((⟨2, 0, 0⟩ : Vec3) - ⟨0, 0, 0⟩) = 2 :=
  ⟨(empty_bends_single_segment 2).1, (empty_bends_single_segment 2).2 (by norm_num)⟩

/-- C7.  For `bends = [{length 8.5, angle 100, rotation 0}]` and
`endLength = 8.5`, the built path is exactly a straight segment from the
origin to (8.5,0,0), the radius-3 arc of sweep 100 degrees about the
bend axis (0,0,1) centered at (8.5,3,0), and a final straight segment of
length 8.5 along the rotated tangent: 2 line segments and 1 arc, every
arc sample at distance `BEND_RADIUS = 3` from the arc center, and total
length `8.5 + arcLength(3, 100 deg) + 8.5`. -/
theorem single_bend_scenario :
    buildTubePath [⟨8.5, 100, 0⟩] 8.5 =
      [PathSegment.line ⟨0, 0, 0⟩ ⟨8.5, 0, 0⟩,
       PathSegment.arc ((List.range 33).map fun (i : ℕ) =>
         applyAxisAngle ⟨0, -3, 0⟩ ⟨0, 0, 1⟩ ((i : ℝ) / 32 * degToRad 100) +
           (⟨8.5, 3, 0⟩ : Vec3)),
       PathSegment.line
         (applyAxisAngle ⟨0, -3, 0⟩ ⟨0, 0, 1⟩ (degToRad 100) + (⟨8.5, 3, 0⟩ : Vec3))
         ((applyAxisAngle ⟨0, -3, 0⟩ ⟨0, 0, 1⟩ (degToRad 100) + (⟨8.5, 3, 0⟩ : Vec3)) +
           smul 8.5 (applyAxisAngle ⟨1, 0, 0⟩ ⟨0, 0, 1⟩ (degToRad 100)))] ∧
    numLines (buildTubePath [⟨8.5, 100, 0⟩] 8.5) = 2 ∧
    numArcs (buildTubePath [⟨8.5, 100, 0⟩] 8.5) = 1 ∧
    ((List.range 33).map fun (i : ℕ) =>
        applyAxisAngle ⟨0, -3, 0⟩ ⟨0, 0, 1⟩ ((i : ℝ) / 32 * degToRad 100) +
          (⟨8.5, 3, 0⟩ : Vec3)).map (fun p => norm3 (p - ⟨8.5, 3, 0⟩)) =
      List.replicate 33 BEND_RADIUS ∧
    norm3 ((⟨8.5, 0, 0⟩ : Vec3) - ⟨0, 0, 0⟩) + arcLength BEND_RADIUS (degToRad 100) +
        norm3 (smul 8.5 (applyAxisAngle ⟨1, 0, 0⟩ ⟨0, 0, 1⟩ (degToRad 100))) =
      8.5 + arcLength 3 (degToRad 100) + 8.5 := by
  have hnext : (⟨0, 0, 0⟩ : Vec3) + smul (8.5 : ℝ) ⟨1, 0, 0⟩ = ⟨8.5, 0, 0⟩ := by
    ext <;> simp
  have hroll : applyAxisAngle (⟨0, 1, 0⟩ : Vec3) ⟨1, 0, 0⟩ (degToRad 0) = ⟨0, 1, 0⟩ := by
    rw [degToRad_zero, applyAxisAngle_zero]
  have haxis : normalize (cross (⟨1, 0, 0⟩ : Vec3) ⟨0, 1, 0⟩) = ⟨0, 0, 1⟩ := by
    have hc : cross (⟨1, 0, 0⟩ : Vec3) ⟨0, 1, 0⟩ = ⟨0, 0, 1⟩ := by
      ext <;> norm_num [cross]
    rw [hc]
    exact normalize_of_unit (by norm_num [dot])
  have hcenter : arcCenter ⟨8.5, 0, 0⟩ ⟨1, 0, 0⟩ ⟨0, 0, 1⟩ BEND_RADIUS = ⟨8.5, 3, 0⟩ := by
    rw [arcCenter]
    have hc : cross (⟨0, 0, 1⟩ : Vec3) ⟨1, 0, 0⟩ = ⟨0, 1, 0⟩ := by
      ext <;> norm_num [cross]
    rw [hc, normalize_of_unit (by norm_num [dot])]
    ext <;> norm_num [BEND_RADIUS]
  have hsub : (⟨8.5, 0, 0⟩ : Vec3) - ⟨8.5, 3, 0⟩ = ⟨0, -3, 0⟩ := by
    ext <;> norm_num
  have harc : makeArc3D ⟨8.5, 0, 0⟩ ⟨1, 0, 0⟩ ⟨0, 0, 1⟩ BEND_RADIUS (degToRad 100) =
      (List.range 33).map fun (i : ℕ) =>
        applyAxisAngle ⟨0, -3, 0⟩ ⟨0, 0, 1⟩ ((i : ℝ) / 32 * degToRad 100) +
          (⟨8.5, 3, 0⟩ : Vec3) := by
    rw [makeArc3D, hcenter, hsub]
    norm_num [arcSegments]
  have hlast : ((List.range 33).map fun (i : ℕ) =>
      applyAxisAngle ⟨0, -3, 0⟩ ⟨0, 0, 1⟩ ((i : ℝ) / 32 * degToRad 100) +
        (⟨8.5, 3, 0⟩ : Vec3)).getLastD ⟨0, 0, 0⟩ =
      applyAxisAngle ⟨0, -3, 0⟩ ⟨0, 0, 1⟩ (degToRad 100) + (⟨8.5, 3, 0⟩ : Vec3) := by
    rw [show (33 : ℕ) = 32 + 1 from rfl, List.range_succ, List.map_append, List.map_cons,
      List.map_nil, getLastD_append_singleton]
    norm_num
  have hpath : buildTubePath [⟨8.5, 100, 0⟩] 8.5 =
      [PathSegment.line ⟨0, 0, 0⟩ ⟨8.5, 0, 0⟩,
       PathSegment.arc ((List.range 33).map fun (i : ℕ) =>
         applyAxisAngle ⟨0, -3, 0⟩ ⟨0, 0, 1⟩ ((i : ℝ) / 32 * degToRad 100) +
           (⟨8.5, 3, 0⟩ : Vec3)),
       PathSegment.line
         (applyAxisAngle ⟨0, -3, 0⟩ ⟨0, 0, 1⟩ (degToRad 100) + (⟨8.5, 3, 0⟩ : Vec3))
         ((applyAxisAngle ⟨0, -3, 0⟩ ⟨0, 0, 1⟩ (degToRad 100) + (⟨8.5, 3, 0⟩ : Vec3)) +
           smul 8.5 (applyAxisAngle ⟨1, 0, 0⟩ ⟨0, 0, 1⟩ (degToRad 100)))] := by
    simp only [buildTubePath, buildSegs, stepBend, initFrame, List.cons_append,
      List.nil_append]
    rw [hnext, hroll, haxis, harc, hlast]
  refine ⟨hpath, ?_, ?_, ?_, ?_⟩
  · rw [hpath]
    simp [numLines, isLine]
  · rw [hpath]
    simp [numArcs, isArc]
  · rw [List.eq_replicate_iff]
    constructor
    · simp
    · intro x hx
      simp only [List.map_map, List.mem_map, List.mem_range] at hx
      obtain ⟨i, hi, rfl⟩ := hx
      simp only [Function.comp_apply]
      have hcancel : applyAxisAngle ⟨0, -3, 0⟩ ⟨0, 0, 1⟩ ((i : ℝ) / 32 * degToRad 100) +
          (⟨8.5, 3, 0⟩ : Vec3) - ⟨8.5, 3, 0⟩ =
          applyAxisAngle ⟨0, -3, 0⟩ ⟨0, 0, 1⟩ ((i : ℝ) / 32 * degToRad 100) := by
        ext <;> simp
      rw [hcancel]
      have hd := dot_applyAxisAngle ⟨0, 0, 1⟩ ⟨0, -3, 0⟩ ⟨0, -3, 0⟩
        ((i : ℝ) / 32 * degToRad 100) (by norm_num [dot])
      rw [norm3, hd, show dot (⟨0, -3, 0⟩ : Vec3) ⟨0, -3, 0⟩ = 3 ^ 2 from by norm_num [dot],
        Real.sqrt_sq (by norm_num : (0 : ℝ) ≤ 3), BEND_RADIUS]
  · have hn1 : norm3 ((⟨8.5, 0, 0⟩ : Vec3) - ⟨0, 0, 0⟩) = 8.5 := by
      rw [norm3, show dot ((⟨8.5, 0, 0⟩ : Vec3) - ⟨0, 0, 0⟩) ((⟨8.5, 0, 0⟩ : Vec3) - ⟨0, 0, 0⟩) =
        (8.5 : ℝ) ^ 2 from by norm_num [dot], Real.sqrt_sq (by norm_num : (0 : ℝ) ≤ 8.5)]
    have ht := dot_applyAxisAngle ⟨0, 0, 1⟩ ⟨1, 0, 0⟩ ⟨1, 0, 0⟩ (degToRad 100)
      (by norm_num [dot])
    have ht1 : dot (applyAxisAngle ⟨1, 0, 0⟩ ⟨0, 0, 1⟩ (degToRad 100))
        (applyAxisAngle ⟨1, 0, 0⟩ ⟨0, 0, 1⟩ (degToRad 100)) = 1 := by
      rw [ht]
      norm_num [dot]
    have hn2 : norm3 (smul 8.5 (applyAxisAngle ⟨1, 0, 0⟩ ⟨0, 0, 1⟩ (degToRad 100))) = 8.5 := by
      have hdd : dot (smul 8.5 (applyAxisAngle ⟨1, 0, 0⟩ ⟨0, 0, 1⟩ (degToRad 100)))
          (smul 8.5 (applyAxisAngle ⟨1, 0, 0⟩ ⟨0, 0, 1⟩ (degToRad 100))) = (8.5 : ℝ) ^ 2 := by
        simp only [dot, smul_x, smul_y, smul_z] at ht1 ⊢
        linear_combination ((8.5 : ℝ) ^ 2) * ht1
      rw [norm3, hdd, Real.sqrt_sq (by norm_num : (0 : ℝ) ≤ 8.5)]
    rw [hn1, hn2, arcLength, arcLength, BEND_RADIUS]

end BendTube
